/-
Verification of the glh-timer timing/results engine.

Shallow embedding of the Python sources in `app/` (and the duration parser
in `backend/app/services.py`) into Lean 4:

* Python strings are modelled as `List Char` (`PyStr`); `str.strip`,
  `str.split`, `str.isdigit` and `int(...)` are modelled character by
  character (Python's underscore digit separators and non-ASCII digits
  are not modelled).
* Timezone-aware datetimes are modelled as integer epoch seconds
  (whole-second resolution), so `int((end - start).total_seconds())`
  becomes integer subtraction.
* The SQLAlchemy store is modelled as explicit lists of rows; SQL `NULL`
  comparison semantics (`col == v` is false when `col` is `NULL`) are
  modelled with `Option` equality against `some v`.
* Fallible handlers return `Except`: `.error` corresponds to a raised
  exception — an `HTTPException` status, a `ValueError`, or an uncaught
  `TypeError`/`AttributeError` surfacing as an HTTP 500 — in which case
  nothing was committed, since every handler below raises before it
  mutates and commits; `.ok` carries the committed store.
* Python's stable `list.sort` / `sorted` are modelled with
  `List.insertionSort`, which is a stable sort.
* Display-only strings built for HTML rendering (the `format_seconds`
  pretty prints and the per-part breakdown map of an Overall results row)
  are not part of the model; the numeric fields the logic sorts and ranks
  on are.
-/
import Mathlib

set_option linter.unusedVariables false

namespace GlhTimer

/-- Decidable equality for `Except`, so witnesses can be checked by
`decide`. -/
instance {ε α : Type} [DecidableEq ε] [DecidableEq α] :
    DecidableEq (Except ε α) := fun x y =>
  match x, y with
  | .ok a, .ok b =>
    if h : a = b then .isTrue (by rw [h])
    else .isFalse (by intro hc; cases hc; exact h rfl)
  | .error a, .error b =>
    if h : a = b then .isTrue (by rw [h])
    else .isFalse (by intro hc; cases hc; exact h rfl)
  | .ok _, .error _ => .isFalse (by intro hc; cases hc)
  | .error _, .ok _ => .isFalse (by intro hc; cases hc)

/-- Python strings, modelled as lists of characters. -/
abbrev PyStr := List Char

/-- Python `str.strip()`: remove leading and trailing whitespace. -/
def pyStrip (s : PyStr) : PyStr :=
  ((s.dropWhile Char.isWhitespace).reverse.dropWhile Char.isWhitespace).reverse

/-- Python `s.split(sep)` for a one-character separator: always returns at
least one (possibly empty) piece. -/
def splitOnChar (sep : Char) : PyStr → List PyStr
  | [] => [[]]
  | c :: cs =>
    match splitOnChar sep cs with
    | [] => [[]]
    | r :: rs => if c = sep then [] :: r :: rs else (c :: r) :: rs

/-- Python `str.isdigit()` (restricted to ASCII digits): true iff the string
is non-empty and all characters are digits. -/
def pyIsDigit (s : PyStr) : Bool :=
  !s.isEmpty && s.all Char.isDigit

/-- Value of a string of decimal digit characters. -/
def digitsToNat (s : PyStr) : Nat :=
  s.foldl (fun acc c => 10 * acc + (c.toNat - '0'.toNat)) 0

/-- Python `int(s)` on a string: strip whitespace, allow one optional sign,
then require a non-empty run of decimal digits; `none` models a raised
`ValueError`. -/
def pyInt? (s : PyStr) : Option Int :=
  match pyStrip s with
  | [] => none
  | c :: ds =>
    if c = '+' then (if pyIsDigit ds then some ((digitsToNat ds : Int)) else none)
    else if c = '-' then (if pyIsDigit ds then some (-(digitsToNat ds : Int)) else none)
    else if pyIsDigit (c :: ds) then some ((digitsToNat (c :: ds) : Int)) else none

/-- Python `str(i)` for an integer. -/
def intToPyStr (i : Int) : PyStr :=
  if i < 0 then '-' :: Nat.toDigits 10 i.natAbs else Nat.toDigits 10 i.natAbs

/-- Model of `app/main.py` `parse_comma_list`: split on commas, strip each item and
drop empty items. -/
def parse_comma_list (value : PyStr) : List PyStr :=
  ((splitOnChar ',' value).map pyStrip).filter (fun item => !item.isEmpty)

/-- Model of `app/main.py` `parse_target_token`: a purely numeric token is a bib
target, anything else is a group target. -/
def parse_target_token (token : PyStr) : Option Int × Option PyStr :=
  if pyIsDigit token then (some (digitsToNat token), none) else (none, some token)

/-- Model of `app/utils.py` `parse_duration_to_seconds`: accepts `MM:SS` or
`HH:MM:SS`; anything else (including a raw-seconds string) raises. -/
def parse_duration_to_seconds (value : PyStr) : Except String Int :=
  let value := pyStrip value
  match splitOnChar ':' value with
  | [minutes, seconds] =>
    match pyInt? minutes, pyInt? seconds with
    | some m, some s => .ok (m * 60 + s)
    | _, _ => .error "invalid literal for int"
  | [hours, minutes, seconds] =>
    match pyInt? hours, pyInt? minutes, pyInt? seconds with
    | some h, some m, some s => .ok (h * 3600 + m * 60 + s)
    | _, _, _ => .error "invalid literal for int"
  | _ => .error "Duration must be MM:SS or HH:MM:SS"

/-- Model of `backend/app/services.py` `_parse_hms_to_seconds`: accepts raw seconds
(`\d+`), `MM:SS`, or `HH:MM:SS`. -/
def parse_hms_to_seconds (s : PyStr) : Except String Int :=
  let s := pyStrip s
  if s.isEmpty then .error "Empty duration"
  else if s.all Char.isDigit then .ok (digitsToNat s)
  else
    match splitOnChar ':' s with
    | [mm, ss] =>
      match pyInt? mm, pyInt? ss with
      | some m, some s2 => .ok (m * 60 + s2)
      | _, _ => .error "invalid literal for int"
    | [hh, mm, ss] =>
      match pyInt? hh, pyInt? mm, pyInt? ss with
      | some h, some m, some s2 => .ok (h * 3600 + m * 60 + s2)
      | _, _, _ => .error "invalid literal for int"
    | _ => .error "Invalid duration format. Use seconds, MM:SS, or HH:MM:SS"

/-- Model of `app/main.py` `parse_duration_field`: `None`/empty means no duration
payload; otherwise parse, converting a `ValueError` into an HTTP 400. -/
def parse_duration_field (value : Option PyStr) : Except String (Option Int) :=
  match value with
  | none => .ok none
  | some v =>
    if v.isEmpty then .ok none
    else (parse_duration_to_seconds v).map some

/-- Value-level model of Python `min` over a list (`none` on the empty
list, where Python raises). -/
def listMin? : List Int → Option Int
  | [] => none
  | x :: xs =>
    some (match listMin? xs with
          | none => x
          | some m => min x m)

/-! ## Data model (`app/models.py`) -/

/-- Model of `app/models.py` `Race` (relationship columns are passed explicitly). -/
structure Race where
  race_id : PyStr
  race_date : Int
  race_timezone : PyStr
deriving DecidableEq, Repr

/-- Model of `app/models.py` `RacePart`. -/
structure RacePart where
  race_id : PyStr
  race_part_id : PyStr
  race_order : Int
  is_overall : Bool
deriving DecidableEq, Repr

/-- Model of `app/models.py` `Participant`. -/
structure Participant where
  race_id : PyStr
  participant_id : Int
  first_name : PyStr
  last_name : PyStr
  group : PyStr
  club : PyStr
  sex : PyStr
deriving DecidableEq, Repr

/-- Model of `app/models.py` `TimingEvent`; datetimes are epoch seconds.
Only the mapped columns are modelled: the physical `created_by_username`
column that `ensure_schema_updates` adds with a raw `ALTER TABLE` is never
mapped on the ORM class, so it is not an attribute of `TimingEvent`. -/
structure TimingEvent where
  id : Nat
  race_id : PyStr
  race_part_id : PyStr
  participant_id : Option Int
  group : Option PyStr
  client_time : Int
  server_time : Int
  duration_seconds : Option Int
  start_time : Option Int
  end_time : Option Int
deriving DecidableEq, Repr

/-! ## Duration resolution (`app/utils.py`, `app/main.py`) -/

/-- Model of `app/utils.py` `compute_best_duration_seconds`: explicit durations plus
`end - start` for every start/end combination with `end >= start`; `none`
(DNF) when there is no candidate, else the minimum candidate. -/
def compute_best_duration_seconds
    (duration_values : List Int) (start_times : List Int) (end_times : List Int) :
    Option Int :=
  let candidates :=
    duration_values ++
      start_times.flatMap (fun s =>
        (end_times.filter (fun e => s ≤ e)).map (fun e => e - s))
  listMin? candidates

/-- The event filter of `compute_participant_duration`'s query: same race
and stage, targeted at the participant's bib or group (SQL `NULL` never
matches). -/
def eventMatches (race_id race_part_id : PyStr) (p : Participant)
    (e : TimingEvent) : Bool :=
  e.race_id = race_id ∧ e.race_part_id = race_part_id ∧
    (e.participant_id = some p.participant_id ∨ e.group = some p.group)

/-- Model of `app/main.py` `compute_participant_duration`. -/
def compute_participant_duration (db : List TimingEvent) (race : Race)
    (race_part_id : PyStr) (participant : Participant) : Option Int :=
  let events := db.filter (eventMatches race.race_id race_part_id participant)
  let duration_values := events.filterMap (fun e => e.duration_seconds)
  let start_times := events.filterMap (fun e => e.start_time)
  let end_times := events.filterMap (fun e => e.end_time)
  compute_best_duration_seconds duration_values start_times end_times

/-- Accumulator loop of `app/main.py` `compute_overall_duration`. -/
def overallLoop (db : List TimingEvent) (race : Race) (participant : Participant) :
    List RacePart → Int → Option Int
  | [], total => some total
  | part :: rest, total =>
    if part.is_overall then overallLoop db race participant rest total
    else
      match compute_participant_duration db race part.race_part_id participant with
      | none => none
      | some duration => overallLoop db race participant rest (total + duration)

/-- Model of `app/main.py` `compute_overall_duration`: sum the per-stage durations
over the non-overall parts, returning `None` as soon as one is `None`. -/
def compute_overall_duration (db : List TimingEvent) (race : Race)
    (participant : Participant) (race_parts : List RacePart) : Option Int :=
  overallLoop db race participant race_parts 0

/-! ## Results aggregation and ranking (`app/main.py` `build_results`) -/

/-- One row of a results table.  The display-only fields of the Python row
dict (the `format_seconds` pretty print and, for the Overall stage, the
per-part breakdown map) are not modelled; `position` is `None` until the
ranking pass assigns it, exactly as the dict has no `position` key until
then. -/
structure ResultRow where
  bib : Int
  name : PyStr
  group : PyStr
  sex : PyStr
  duration_seconds : Option Int
  position : Option Nat
deriving DecidableEq, Repr

/-- The sort key of `build_results`' `rows.sort`:
`(item.duration_seconds is None, item.duration_seconds or 0)` compared
lexicographically (Python sorts `False < True`). -/
def rowKey (r : ResultRow) : Nat × Int :=
  (if r.duration_seconds = none then 1 else 0,
   match r.duration_seconds with
   | none => 0
   | some v => v)

/-- The `≤` on `rowKey`, handed to the stable sort. -/
def rowLE (a b : ResultRow) : Prop :=
  (rowKey a).1 < (rowKey b).1 ∨
    ((rowKey a).1 = (rowKey b).1 ∧ (rowKey a).2 ≤ (rowKey b).2)

instance : DecidableRel rowLE := fun a b => by
  unfold rowLE
  infer_instance

/-- The per-participant row-building loop of `build_results` (group/sex
filters, Overall vs ordinary duration resolution). -/
def build_rows (db : List TimingEvent) (race : Race) (race_part : RacePart)
    (non_overall_parts : List RacePart) (participants : List Participant)
    (group_filters sex_filters : List PyStr) : List ResultRow :=
  participants.filterMap (fun p =>
    if !group_filters.isEmpty ∧ p.group ∉ group_filters then none
    else if !sex_filters.isEmpty ∧ p.sex ∉ sex_filters then none
    else
      let duration :=
        if race_part.is_overall then
          compute_overall_duration db race p non_overall_parts
        else
          compute_participant_duration db race race_part.race_part_id p
      some { bib := p.participant_id
             name := p.first_name ++ [' '] ++ p.last_name
             group := p.group
             sex := p.sex
             duration_seconds := duration
             position := none })

/-- The final ranking loop of `build_results`: walk the sorted rows,
giving each finisher the next sequential position and DNF rows no
position. -/
def assignPositions : List ResultRow → Nat → List ResultRow
  | [], _ => []
  | r :: rs, pos =>
    if r.duration_seconds = none then
      { r with position := none } :: assignPositions rs pos
    else
      { r with position := some pos } :: assignPositions rs (pos + 1)

/-- Model of `app/main.py` `build_results`: participants of the race ordered by bib,
filtered, resolved, stably sorted by `(is DNF, duration or 0)`, then
ranked.  `parts` is the race's `race_parts` relationship; the non-overall
parts are sorted by `race_order` as in the source. -/
def build_results (db : List TimingEvent) (race : Race) (race_part : RacePart)
    (parts : List RacePart) (participants : List Participant)
    (group_filters sex_filters : List PyStr) : List ResultRow :=
  let ps := List.insertionSort (fun a b => a.participant_id ≤ b.participant_id)
    (participants.filter (fun p => p.race_id = race.race_id))
  let non_overall_parts := List.insertionSort (fun a b => a.race_order ≤ b.race_order)
    (parts.filter (fun q => !q.is_overall))
  let rows := build_rows db race race_part non_overall_parts ps
    group_filters sex_filters
  assignPositions (List.insertionSort rowLE rows) 1

/-! ## Wave-start scheduling (`app/main.py` `wave_starts_data`) -/

/-- One entry of the wave-start schedule. -/
structure WaveRow where
  participant_id : Int
  group : PyStr
  offset_seconds : Int
deriving DecidableEq, Repr

/-- The `order_by(RacePart.is_overall, RacePart.race_order)` sort key (SQL
sorts false before true). -/
def partOrderLE (a b : RacePart) : Prop :=
  (if a.is_overall then (1 : Nat) else 0) < (if b.is_overall then (1 : Nat) else 0) ∨
    (a.is_overall = b.is_overall ∧ a.race_order ≤ b.race_order)

instance : DecidableRel partOrderLE := fun a b => by
  unfold partOrderLE
  infer_instance

/-- The per-participant loop of `wave_starts_data`: sum the durations of
the given parts, `none` as soon as one resolves to `None` (`valid =
False`). -/
def waveTotal (db : List TimingEvent) (race : Race) (participant : Participant) :
    List RacePart → Int → Option Int
  | [], total => some total
  | part :: rest, total =>
    match compute_participant_duration db race part.race_part_id participant with
    | none => none
    | some duration => waveTotal db race participant rest (total + duration)

/-- Model of `app/main.py` `wave_starts_data`: resolve the target tokens to
participants, drop every participant with a DNF in a stage preceding the
requested one, and emit the rest sorted by cumulative offset.  Errors are
the raised HTTP status codes. -/
def wave_starts_data (races : List Race) (parts : List RacePart)
    (participants : List Participant) (db : List TimingEvent)
    (race_id race_part_id : PyStr) (targets : PyStr) :
    Except Nat (List WaveRow) :=
  match races.find? (fun r => r.race_id = race_id) with
  | none => .error 404
  | some race =>
    match parts.find? (fun q => q.race_id = race_id ∧ q.race_part_id = race_part_id) with
    | none => .error 404
    | some part =>
      if part.is_overall then .error 404
      else
        let target_list := parse_comma_list targets
        let racers := participants.filter (fun p => p.race_id = race_id)
        let filtered := racers.filter (fun p =>
          intToPyStr p.participant_id ∈ target_list ∨ p.group ∈ target_list)
        let race_parts := List.insertionSort partOrderLE
          (parts.filter (fun q => q.race_id = race_id))
        match race_parts.find? (fun q => q.race_part_id = race_part_id) with
        | none => .error 404
        | some current_part =>
          let previous_parts := race_parts.filter (fun q =>
            !q.is_overall ∧ q.race_order < current_part.race_order)
          let schedule := filtered.filterMap (fun p =>
            match waveTotal db race p previous_parts 0 with
            | none => none
            | some total =>
              some { participant_id := p.participant_id
                     group := p.group
                     offset_seconds := total })
          .ok (List.insertionSort (fun a b => a.offset_seconds ≤ b.offset_seconds)
            schedule)

/-! ## Timing-event submission (`app/main.py`) -/

/-- Model of `app/main.py` `create_timing_event` (the fresh id and the
server clock reading at the moment of the call are passed explicitly).
The source always passes `created_by_username=` to the `TimingEvent(...)`
constructor, but `app/models.py` declares no such mapped attribute (the
raw `ALTER TABLE` in `ensure_schema_updates` adds only an unmapped
physical column), so the SQLAlchemy declarative constructor raises
`TypeError` on every call and no event row is ever produced. -/
def create_timing_event (fresh_id : Nat) (race : Race) (race_part_id : PyStr)
    (participant_id : Option Int) (group : Option PyStr) (client_time : Int)
    (server_now : Int) (duration_seconds : Option Int)
    (start_time end_time : Option Int) (created_by_username : Option PyStr) :
    Except String TimingEvent :=
  .error "TypeError: created_by_username is an invalid keyword argument for TimingEvent"

/-- The per-token loop of `submit_duration`: one `create_timing_event`
call per token (a numeric token as a bib target, any other token as a
group target), collecting created rows and aborting on a raised
exception. -/
def submitDurationLoop (race : Race) (race_part_id : PyStr) (server_now : Int)
    (server_now_at : Nat → Int) (duration_seconds : Option Int)
    (next_id : Nat) : List (Nat × PyStr) → List TimingEvent →
    Except String (List TimingEvent)
  | [], acc => .ok acc
  | ti :: rest, acc =>
    match (if pyIsDigit ti.2 then
        create_timing_event (next_id + ti.1) race race_part_id
          (some ((digitsToNat ti.2 : Int))) none server_now (server_now_at ti.1)
          duration_seconds none none none
      else
        create_timing_event (next_id + ti.1) race race_part_id
          none (some ti.2) server_now (server_now_at ti.1)
          duration_seconds none none none) with
    | .error e => .error e
    | .ok ev => submitDurationLoop race race_part_id server_now server_now_at
        duration_seconds next_id rest (acc ++ [ev])

/-- Model of `app/main.py` `submit_duration`: race/stage validation, one
payload parse, then one `create_timing_event` call per comma token and a
single commit.  Because every `create_timing_event` call raises
`TypeError` (see there), a non-empty token list aborts at its first token
with an uncaught exception (HTTP 500) and commits nothing; an empty token
list skips the loop and commits zero events. -/
def submit_duration (races : List Race) (parts : List RacePart)
    (db : List TimingEvent) (race_id race_part_id : PyStr)
    (targets duration : PyStr) (server_now : Int) (server_now_at : Nat → Int)
    (next_id : Nat) : Except Nat (List TimingEvent) :=
  match races.find? (fun r => r.race_id = race_id) with
  | none => .error 404
  | some race =>
    match parts.find? (fun q => q.race_id = race_id ∧ q.race_part_id = race_part_id) with
    | none => .error 404
    | some part =>
      if part.is_overall then .error 404
      else
        match parse_duration_field (some duration) with
        | .error _ => .error 400
        | .ok duration_seconds =>
          match submitDurationLoop race race_part_id server_now server_now_at
              duration_seconds next_id (parse_comma_list targets).enum [] with
          | .error _ => .error 500
          | .ok created => .ok (db ++ created)

/-- Model of `app/main.py` `submit_end_targets` (claiming a pending end
event).  The handler 404s when the race, stage or event is missing or the
event belongs to a different race/stage; past that point the `or`-chain
reads `event.created_by_username`, an attribute `app/models.py` never
declares, so it crashes with `AttributeError` (an uncaught HTTP 500, with
nothing mutated) before the identity check, the untargeted/end-time
check, the retargeting or the duplicate creation of the source can run —
those later steps are unreachable. -/
def submit_end_targets (races : List Race) (parts : List RacePart)
    (db : List TimingEvent) (race_id race_part_id : PyStr) (event_id : Nat)
    (username : PyStr) (targets : PyStr) (next_id : Nat) :
    Except Nat (List TimingEvent × Nat) :=
  match races.find? (fun r => r.race_id = race_id) with
  | none => .error 404
  | some _race =>
    match parts.find? (fun q => q.race_id = race_id ∧ q.race_part_id = race_part_id) with
    | none => .error 404
    | some part =>
      if part.is_overall then .error 404
      else
        match db.find? (fun e => e.id = event_id) with
        | none => .error 404
        | some event =>
          if event.race_id ≠ race_id ∨ event.race_part_id ≠ race_part_id then
            .error 404
          else .error 500

/-! ## CSV reconciliation (`app/main.py`) -/

/-- A Python dict value as found in the CSV row dicts: the `_key` and
`participant_id` fields of a participants row are ints, everything else
is a string. -/
inductive PyVal where
  | int (i : Int)
  | str (s : PyStr)
deriving DecidableEq, Repr

/-- A CSV row dict, as an association list. -/
abbrev Row := List (String × PyVal)

/-- Python `row.get(k)` / `row[k]` lookup (rows are built with distinct
keys, so first match is the dict entry). -/
def rowGet (r : Row) (k : String) : Option PyVal :=
  match r with
  | [] => none
  | kv :: rest => if kv.1 = k then some kv.2 else rowGet rest k

/-- Lookup in the `existing_rows` dict keyed by the natural key. -/
def keyedGet (key : PyVal) : List (PyVal × Row) → Option Row
  | [] => none
  | kv :: rest => if kv.1 = key then some kv.2 else keyedGet key rest

/-- Model of `app/main.py` `diff_rows`: true iff any field of the incoming row
differs from the existing row (a field absent from the existing row
counts as differing). -/
def diff_rows (existing incoming : Row) : Bool :=
  incoming.any (fun kv => rowGet existing kv.1 ≠ some kv.2)

/-- The three buckets returned by `build_csv_preview`. -/
structure Preview where
  added : List Row
  modified : List Row
  ignored : List Row
deriving DecidableEq, Repr

/-- Model of `app/main.py` `build_csv_preview`: classify each incoming row by its
`_key` against the existing keyed rows.  A row without a `_key` entry is
a `KeyError`. -/
def build_csv_preview : List Row → List (PyVal × Row) → Except String Preview
  | [], _ => .ok ⟨[], [], []⟩
  | r :: rest, existing =>
    match rowGet r "_key" with
    | none => .error "KeyError"
    | some key =>
      match build_csv_preview rest existing with
      | .error e => .error e
      | .ok p =>
        match keyedGet key existing with
        | none => .ok { p with added := r :: p.added }
        | some ex =>
          if diff_rows ex r then .ok { p with modified := r :: p.modified }
          else .ok { p with ignored := r :: p.ignored }

/-! ## Participants CSV apply (`app/main.py` `apply_participants_csv`) -/

/-- Model of `app/main.py` `is_valid_group_name`: non-empty and starting with a
letter. -/
def is_valid_group_name (value : PyStr) : Bool :=
  match value with
  | [] => false
  | c :: _ => c.isAlpha

/-- A participants CSV row as found in the client-held apply payload;
`none` models an absent dict key. -/
structure PRow where
  participant_id : Option Int
  first_name : Option PyStr
  last_name : Option PyStr
  group : Option PyStr
  club : Option PyStr
  sex : Option PyStr
deriving DecidableEq, Repr

/-- The approved diff payload posted back to the apply endpoint. -/
structure PPreview where
  added : List PRow
  modified : List PRow
  ignored : List PRow
deriving DecidableEq, Repr

/-- The rejection message `apply_participants_csv` renders for an invalid
group name (`g` is the already-stripped group value). -/
def group_apply_error (r : PRow) (g : PyStr) : PyStr :=
  "Invalid group name in CSV for bib ".toList ++
    (match r.participant_id with
     | some pid => intToPyStr pid
     | none => "<unknown>".toList) ++
    ": ".toList ++ (if g.isEmpty then "<empty>".toList else g) ++
    ". Group names must start with a letter.".toList

/-- The validation loop at the top of `apply_participants_csv`: strip each
row's group, reject the first invalid one, and write the stripped value
back into the row. -/
def validateGroups : List PRow → Except PyStr (List PRow)
  | [] => .ok []
  | r :: rs =>
    let g := pyStrip (r.group.getD [])
    if is_valid_group_name g then
      match validateGroups rs with
      | .error e => .error e
      | .ok rs' => .ok ({ r with group := some g } :: rs')
    else .error (group_apply_error r g)

/-- Python `row[k]` on an optional field: a missing key raises
`KeyError`. -/
def reqField (o : Option α) : Except PyStr α :=
  match o with
  | some v => .ok v
  | none => .error "KeyError".toList

/-- The `Participant(...)` constructed for one added row. -/
def addedParticipant (race_id : PyStr) (r : PRow) : Except PyStr Participant := do
  let pid ← reqField r.participant_id
  let fn ← reqField r.first_name
  let ln ← reqField r.last_name
  let g ← reqField r.group
  .ok { race_id := race_id
        participant_id := pid
        first_name := fn
        last_name := ln
        group := g
        club := r.club.getD []
        sex := r.sex.getD [] }

/-- The modified-row update: overwrite the first matching participant (the
`db.scalar` select); no-op when none matches. -/
def updateFirst (race_id : PyStr) (pid : Int) (fn ln g club sex : PyStr) :
    List Participant → List Participant
  | [] => []
  | p :: ps =>
    if p.race_id = race_id ∧ p.participant_id = pid then
      { p with first_name := fn, last_name := ln, group := g,
               club := club, sex := sex } :: ps
    else p :: updateFirst race_id pid fn ln g club sex ps

/-- The modified-rows loop of `apply_participants_csv`. -/
def applyModified (race_id : PyStr) : List PRow → List Participant →
    Except PyStr (List Participant)
  | [], store => .ok store
  | r :: rs, store => do
    let pid ← reqField r.participant_id
    let fn ← reqField r.first_name
    let ln ← reqField r.last_name
    let g ← reqField r.group
    applyModified race_id rs
      (updateFirst race_id pid fn ln g (r.club.getD []) (r.sex.getD []) store)

/-- Model of `app/main.py` `apply_participants_csv`: re-validate the group names of
every added and modified row, then insert the added rows and update the
modified rows, committing once at the end.  An `.error` is the rendered
rejection (or a raised `KeyError`): the transaction never commits, so the
caller's store is unchanged. -/
def apply_participants_csv (race_id : PyStr) (preview : PPreview)
    (store : List Participant) : Except PyStr (List Participant) :=
  match validateGroups preview.added with
  | .error e => .error e
  | .ok added =>
    match validateGroups preview.modified with
    | .error e => .error e
    | .ok modified =>
      match added.mapM (addedParticipant race_id) with
      | .error e => .error e
      | .ok newParts => applyModified race_id modified (store ++ newParts)

/-! ## Specification-side predicates -/

/-- The candidate elapsed values of the Duration Resolver, stated as the
spec states them: every explicit duration among the gathered events, plus
`end - start` for every start-carrying event and every end-carrying event
in the gathered set with `end ≥ start` (all combinations). -/
def isCandidate (events : List TimingEvent) (c : Int) : Prop :=
  (∃ e ∈ events, e.duration_seconds = some c) ∨
    (∃ e1 ∈ events, ∃ e2 ∈ events, ∃ s t : Int,
      e1.start_time = some s ∧ e2.end_time = some t ∧ s ≤ t ∧ c = t - s)

/-! ## Ranking lemmas (`build_results`) -/

instance : IsTotal ResultRow rowLE :=
  ⟨fun a b => by simp only [rowLE]; omega⟩

instance : IsTrans ResultRow rowLE :=
  ⟨fun a b c hab hbc => by
    simp only [rowLE] at hab hbc ⊢
    omega⟩

/-- Concrete fixture for witnesses: race `r` with one ordinary stage `s`,
a finisher (bib 1, explicit 100 s) and a DNF participant (bib 2). -/
def wdb : List TimingEvent :=
  [⟨1, "r".toList, "s".toList, some 1, none, 0, 0, some 100, none, none⟩]

/-- Witness race. -/
def wrace : Race := ⟨"r".toList, 0, "UTC".toList⟩

/-- Witness ordinary stage. -/
def wpart : RacePart := ⟨"r".toList, "s".toList, 0, false⟩

/-- Witness Overall stage. -/
def wpartOverall : RacePart := ⟨"r".toList, "overall".toList, 9999, true⟩

/-- Witness finisher. -/
def wp1 : Participant := ⟨"r".toList, 1, "A".toList, "B".toList, "G".toList, [], []⟩

/-- Witness DNF participant. -/
def wp2 : Participant := ⟨"r".toList, 2, "C".toList, "D".toList, "G".toList, [], []⟩

/-! ## CSV preview classification (C5) -/

/-- The natural key of a CSV row dict (rows built by the upload handlers
always carry a `_key` entry). -/
def rowNaturalKey (r : Row) : PyVal :=
  (rowGet r "_key").getD (PyVal.str [])

/-- Witness fixtures for the CSV claims. -/
def c5row1 : Row :=
  [("_key", .int 1), ("participant_id", .int 1), ("first_name", .str "A".toList)]

/-- Incoming row whose key exists with a differing field. -/
def c5row2 : Row :=
  [("_key", .int 2), ("participant_id", .int 2), ("first_name", .str "B".toList)]

/-- Incoming row identical to its existing counterpart. -/
def c5row3 : Row :=
  [("_key", .int 3), ("participant_id", .int 3), ("first_name", .str "C".toList)]

/-- Existing row sharing key 2 but differing in a field. -/
def c5ex2 : Row :=
  [("_key", .int 2), ("participant_id", .int 2), ("first_name", .str "X".toList)]

/-- Incoming rows of the witness. -/
def c5incoming : List Row := [c5row1, c5row2, c5row3]

/-- Existing keyed rows of the witness. -/
def c5existing : List (PyVal × Row) := [(.int 2, c5ex2), (.int 3, c5row3)]

/-- Witness row with a valid group. -/
def c9good : PRow :=
  ⟨some 1, some "A".toList, some "B".toList, some "Open".toList, none, none⟩

/-- Witness row with the invalid group `1K`. -/
def c9bad : PRow :=
  ⟨some 2, some "C".toList, some "D".toList, some "1K".toList, none, none⟩

/-- Witness approved-diff payload. -/
def c9preview : PPreview := ⟨[c9good], [c9bad], []⟩

/-- Pending event of the C6 failing input: untargeted and end-stamped in
race `r` stage `s`, exactly the shape the claimed workflow is meant to
let its creator claim. -/
def c6pending : TimingEvent :=
  ⟨5, "r".toList, "s".toList, none, none, 0, 0, none, none, some 10⟩

/-- Witness first stage. -/
def c7s0 : RacePart := ⟨"r".toList, "s0".toList, 0, false⟩

/-- Witness second stage. -/
def c7s1 : RacePart := ⟨"r".toList, "s1".toList, 1, false⟩

/-- Witness event: bib 1 finished stage `s0` in 100 s (bib 2 has no
event, so it is DNF in `s0`). -/
def c7e1 : TimingEvent :=
  ⟨1, "r".toList, "s0".toList, some 1, none, 0, 0, some 100, none, none⟩

/-! ## Theorems -/

/-! ## Lemmas about the list minimum -/

theorem listMin?_eq_none_iff {l : List Int} : listMin? l = none ↔ l = [] := by
  cases l <;> simp [listMin?]

theorem listMin?_spec {l : List Int} {m : Int} (h : listMin? l = some m) :
    m ∈ l ∧ ∀ x ∈ l, m ≤ x := by
  induction l generalizing m with
  | nil => simp [listMin?] at h
  | cons x xs ih =>
    simp only [listMin?] at h
    cases hxs : listMin? xs with
    | none =>
      rw [hxs] at h
      have hx : x = m := by injection h
      subst hx
      have : xs = [] := listMin?_eq_none_iff.mp hxs
      subst this
      simp
    | some m' =>
      rw [hxs] at h
      have hmin : min x m' = m := by injection h
      obtain ⟨hmem, hbound⟩ := ih hxs
      constructor
      · rcases min_choice x m' with hc | hc <;> rw [hc] at hmin <;> subst hmin
        · exact List.mem_cons_self _ _
        · exact List.mem_cons_of_mem _ hmem
      · intro y hy
        rw [← hmin]
        rcases List.mem_cons.mp hy with hy | hy
        · subst hy; exact min_le_left _ _
        · exact le_trans (min_le_right _ _) (hbound y hy)

theorem listMin?_eq_some_iff {l : List Int} {m : Int} :
    listMin? l = some m ↔ m ∈ l ∧ ∀ x ∈ l, m ≤ x := by
  constructor
  · exact listMin?_spec
  · rintro ⟨hmem, hbound⟩
    cases hl : listMin? l with
    | none =>
      rw [listMin?_eq_none_iff] at hl
      subst hl
      simp at hmem
    | some m0 =>
      obtain ⟨hmem0, hbound0⟩ := listMin?_spec hl
      have h1 : m ≤ m0 := hbound m0 hmem0
      have h2 : m0 ≤ m := hbound0 m hmem
      exact congrArg some (le_antisymm h2 h1)

/-- Membership in the candidate list built by
`compute_best_duration_seconds` (over the filterMapped fields of the
gathered events) coincides with the spec-side candidate predicate. -/
theorem mem_candidates_iff (events : List TimingEvent) (c : Int) :
    c ∈ (events.filterMap (fun e => e.duration_seconds) ++
          (events.filterMap (fun e => e.start_time)).flatMap (fun s =>
            ((events.filterMap (fun e => e.end_time)).filter (fun e => s ≤ e)).map
              (fun e => e - s))) ↔ isCandidate events c := by
  simp only [isCandidate, List.mem_append, List.mem_filterMap, List.mem_flatMap,
    List.mem_map, List.mem_filter, decide_eq_true_eq]
  constructor
  · rintro (⟨e, he, hd⟩ | ⟨s, ⟨e1, he1, hs⟩, t, ⟨⟨e2, he2, ht⟩, hle⟩, hc⟩)
    · exact Or.inl ⟨e, he, hd⟩
    · exact Or.inr ⟨e1, he1, e2, he2, s, t, hs, ht, hle, by omega⟩
  · rintro (⟨e, he, hd⟩ | ⟨e1, he1, e2, he2, s, t, hs, ht, hle, hc⟩)
    · exact Or.inl ⟨e, he, hd⟩
    · exact Or.inr ⟨s, ⟨e1, he1, hs⟩, t, ⟨⟨e2, he2, ht⟩, hle⟩, by omega⟩

/-- C1: for every participant and ordinary stage, the resolved duration is
the minimum of the candidate set (explicit durations among the gathered
events plus `end - start` over all start-by-end combinations with
`end ≥ start`), and DNF (`none`) exactly when the candidate set is
empty. -/
theorem participant_duration_is_min_of_candidates (db : List TimingEvent)
    (race : Race) (race_part_id : PyStr) (p : Participant) :
    (compute_participant_duration db race race_part_id p = none ↔
      ∀ c : Int,
        ¬ isCandidate (db.filter (eventMatches race.race_id race_part_id p)) c) ∧
    (∀ m : Int,
      compute_participant_duration db race race_part_id p = some m ↔
        isCandidate (db.filter (eventMatches race.race_id race_part_id p)) m ∧
          ∀ c : Int,
            isCandidate (db.filter (eventMatches race.race_id race_part_id p)) c →
              m ≤ c) := by
  simp only [compute_participant_duration, compute_best_duration_seconds]
  constructor
  · rw [listMin?_eq_none_iff, List.eq_nil_iff_forall_not_mem]
    exact forall_congr' (fun c => not_congr (mem_candidates_iff _ _))
  · intro m
    rw [listMin?_eq_some_iff]
    constructor
    · rintro ⟨hm, hb⟩
      exact ⟨(mem_candidates_iff _ _).mp hm,
        fun c hc => hb c ((mem_candidates_iff _ _).mpr hc)⟩
    · rintro ⟨hm, hb⟩
      exact ⟨(mem_candidates_iff _ _).mpr hm,
        fun c hc => hb c ((mem_candidates_iff _ _).mp hc)⟩

/-- Closed form of the `compute_overall_duration` accumulator loop: a sum
over the non-overall parts if each resolves, else `none`. -/
theorem overallLoop_spec (db : List TimingEvent) (race : Race)
    (p : Participant) (parts : List RacePart) : ∀ acc : Int,
    overallLoop db race p parts acc =
      (if (parts.filter (fun q => !q.is_overall)).all
            (fun q => (compute_participant_duration db race q.race_part_id p).isSome)
       then some (acc + ((parts.filter (fun q => !q.is_overall)).map
              (fun q => (compute_participant_duration db race q.race_part_id p).getD 0)).sum)
       else none) := by
  induction parts with
  | nil => intro acc; simp [overallLoop]
  | cons part rest ih =>
    intro acc
    by_cases hov : part.is_overall
    · simp only [overallLoop, hov, if_true]
      rw [ih acc]
      simp [List.filter_cons, hov]
    · cases hd : compute_participant_duration db race part.race_part_id p with
      | none => simp [overallLoop, hov, hd, List.filter_cons]
      | some d =>
        simp only [overallLoop, hov, if_false, hd]
        rw [ih (acc + d)]
        simp [List.filter_cons, hov, hd, add_assoc]

/-- C2: the Overall result is the sum of the per-stage durations iff every
non-overall stage resolves numerically; a single non-overall DNF makes the
Overall result DNF. -/
theorem overall_duration_sum_iff (db : List TimingEvent) (race : Race)
    (p : Participant) (parts : List RacePart) :
    (compute_overall_duration db race p parts = none ↔
      ∃ q ∈ parts, q.is_overall = false ∧
        compute_participant_duration db race q.race_part_id p = none) ∧
    (∀ s : Int,
      compute_overall_duration db race p parts = some s ↔
        (∀ q ∈ parts, q.is_overall = false →
          (compute_participant_duration db race q.race_part_id p).isSome) ∧
        s = ((parts.filter (fun q => !q.is_overall)).map
              (fun q => (compute_participant_duration db race q.race_part_id p).getD 0)).sum) := by
  have hspec := overallLoop_spec db race p parts 0
  rw [compute_overall_duration, hspec]
  by_cases hall : ((parts.filter (fun q => !q.is_overall)).all
      (fun q => (compute_participant_duration db race q.race_part_id p).isSome)) = true
  · rw [if_pos hall]
    simp only [List.all_eq_true, List.mem_filter, Bool.not_eq_true'] at hall
    constructor
    · constructor
      · intro h; simp at h
      · rintro ⟨q, hq, hqov, hqnone⟩
        have h2 := hall q ⟨hq, hqov⟩
        rw [hqnone] at h2
        simp at h2
    · intro s
      constructor
      · intro h
        have hs : (0 : Int) +
            ((parts.filter (fun q => !q.is_overall)).map
              (fun q => (compute_participant_duration db race q.race_part_id p).getD 0)).sum = s := by
          injection h
        refine ⟨fun q hq hqov => hall q ⟨hq, hqov⟩, ?_⟩
        omega
      · rintro ⟨_, hs⟩
        rw [hs, zero_add]
  · rw [if_neg hall]
    simp only [List.all_eq_true, List.mem_filter, Bool.not_eq_true'] at hall
    push_neg at hall
    obtain ⟨q, hq, hflag⟩ := hall
    constructor
    · constructor
      · intro _
        cases hcpd : compute_participant_duration db race q.race_part_id p with
        | none => exact ⟨q, hq.1, hq.2, hcpd⟩
        | some d => rw [hcpd] at hflag; simp at hflag
      · intro _; rfl
    · intro s
      constructor
      · intro h; simp at h
      · rintro ⟨hforall, _⟩
        exact absurd (hforall q hq.1 hq.2) hflag

/-- Any two DNF rows compare `rowLE` (their sort keys are equal). -/
theorem rowLE_of_dnf {a b : ResultRow} (ha : a.duration_seconds.isNone)
    (hb : b.duration_seconds.isNone) : rowLE a b := by
  simp only [Option.isNone_iff_eq_none] at ha hb
  simp [rowLE, rowKey, ha, hb]

/-- The relation `rowLE` never puts a DNF row before a finisher. -/
theorem rowLE_finisher {a b : ResultRow} (h : rowLE a b)
    (hb : b.duration_seconds ≠ none) : a.duration_seconds ≠ none := by
  simp only [rowLE, rowKey] at h
  intro ha
  rw [ha] at h
  cases hdb : b.duration_seconds with
  | none => exact hb hdb
  | some v => rw [hdb] at h; simp at h

theorem assignPositions_length (l : List ResultRow) (p : Nat) :
    (assignPositions l p).length = l.length := by
  induction l generalizing p with
  | nil => rfl
  | cons r rs ih =>
    by_cases h : r.duration_seconds = none <;> simp [assignPositions, h, ih]

theorem assignPositions_filterMap_duration (l : List ResultRow) (p : Nat) :
    (assignPositions l p).filterMap (fun r => r.duration_seconds) =
      l.filterMap (fun r => r.duration_seconds) := by
  induction l generalizing p with
  | nil => rfl
  | cons r rs ih =>
    by_cases h : r.duration_seconds = none <;>
      simp [assignPositions, h, ih, List.filterMap_cons]

/-- Index-wise description of the ranking pass: each row keeps its fields,
a DNF row gets no position, a finisher gets `p` plus the number of
finishers before it. -/
theorem assignPositions_getElem (l : List ResultRow) (p : Nat) (i : Nat)
    (h : i < (assignPositions l p).length) (h' : i < l.length) :
    (assignPositions l p)[i] =
      { l[i] with position :=
          if l[i].duration_seconds = none then none
          else some (p + (l.take i).countP (fun r => r.duration_seconds.isSome)) } := by
  induction l generalizing p i with
  | nil => simp at h'
  | cons r rs ih =>
    cases i with
    | zero =>
      by_cases hr : r.duration_seconds = none <;> simp [assignPositions, hr]
    | succ n =>
      have hn : n < rs.length := by simpa using h'
      by_cases hr : r.duration_seconds = none
      · have hlen : n < (assignPositions rs p).length := by
          rw [assignPositions_length]; exact hn
        simp only [assignPositions]
        simp only [if_pos hr]
        simp only [List.getElem_cons_succ, List.take_succ_cons, List.countP_cons]
        rw [ih p n hlen hn]
        simp [hr]
      · have hlen : n < (assignPositions rs (p + 1)).length := by
          rw [assignPositions_length]; exact hn
        simp only [assignPositions]
        simp only [if_neg hr]
        simp only [List.getElem_cons_succ, List.take_succ_cons, List.countP_cons]
        rw [ih (p + 1) n hlen hn]
        have hsome : r.duration_seconds.isSome = true :=
          Option.isSome_iff_ne_none.mpr hr
        simp only [hsome, if_pos]
        by_cases hd : rs[n].duration_seconds = none <;> simp [hd]
        omega

/-- The ranking pass leaves DNF rows (whose `position` is still `none`)
untouched, in order. -/
theorem assignPositions_filter_dnf (l : List ResultRow) (p : Nat)
    (hpos : ∀ r ∈ l, r.position = none) :
    (assignPositions l p).filter (fun r => r.duration_seconds.isNone) =
      l.filter (fun r => r.duration_seconds.isNone) := by
  induction l generalizing p with
  | nil => rfl
  | cons r rs ih =>
    have hrpos : r.position = none := hpos r (List.mem_cons_self _ _)
    have hrest : ∀ x ∈ rs, x.position = none :=
      fun x hx => hpos x (List.mem_cons_of_mem _ hx)
    by_cases hr : r.duration_seconds = none
    · have heta : ({ r with position := none } : ResultRow) = r := by
        cases r
        simp_all
      simp only [assignPositions]
      rw [if_pos hr, heta]
      simp [List.filter_cons, hr, ih p hrest]
    · simp only [assignPositions]
      rw [if_neg hr]
      simp [List.filter_cons, hr, ih (p + 1) hrest,
        Option.isNone_iff_eq_none]

/-- Stability of the results sort on the DNF block: the DNF rows come out
of the sort exactly as they went in. -/
theorem insertionSort_filter_dnf (l : List ResultRow) :
    (List.insertionSort rowLE l).filter (fun r => r.duration_seconds.isNone) =
      l.filter (fun r => r.duration_seconds.isNone) := by
  have hpw : (l.filter (fun r => r.duration_seconds.isNone)).Pairwise rowLE := by
    rw [List.pairwise_iff_getElem]
    intro i j hi hj hij
    have h1 := List.getElem_mem hi
    have h2 := List.getElem_mem hj
    rw [List.mem_filter] at h1 h2
    exact rowLE_of_dnf h1.2 h2.2
  have hsub : List.Sublist (l.filter (fun r => r.duration_seconds.isNone))
      (List.insertionSort rowLE l) :=
    List.sublist_insertionSort hpw (List.filter_sublist l)
  have hsub2 := hsub.filter (fun r => r.duration_seconds.isNone)
  rw [List.filter_filter] at hsub2
  simp only [Bool.and_self] at hsub2
  have hperm : List.Perm
      ((List.insertionSort rowLE l).filter (fun r => r.duration_seconds.isNone))
      (l.filter (fun r => r.duration_seconds.isNone)) :=
    (List.perm_insertionSort rowLE l).filter _
  exact (hsub2.eq_of_length hperm.length_eq.symm).symm

/-- Every row built by the aggregation loop starts without a position. -/
theorem build_rows_position_none (db : List TimingEvent) (race : Race)
    (race_part : RacePart) (nparts : List RacePart)
    (participants : List Participant) (gf sf : List PyStr) :
    ∀ r ∈ build_rows db race race_part nparts participants gf sf,
      r.position = none := by
  intro r hr
  simp only [build_rows, List.mem_filterMap] at hr
  obtain ⟨p, _, hmk⟩ := hr
  split at hmk
  · exact absurd hmk (by simp)
  · split at hmk
    · exact absurd hmk (by simp)
    · cases hmk
      rfl

/-- The relation `rowLE` between two finishers compares their durations. -/
theorem rowLE_le {a b : ResultRow} {x y : Int} (h : rowLE a b)
    (hx : a.duration_seconds = some x) (hy : b.duration_seconds = some y) :
    x ≤ y := by
  simp only [rowLE, rowKey, hx, hy] at h
  simpa using h

/-- C3: in every ranked results list, finishers appear first sorted
ascending by duration with sequential ranks `1..k` (rank 1 = fastest)
assigned only to finishers; every DNF row follows all finisher rows, the
DNF rows keep their stable pre-sort relative order, and DNF rows carry no
rank. -/
theorem build_results_ranking (db : List TimingEvent) (race : Race)
    (race_part : RacePart) (parts : List RacePart)
    (participants : List Participant) (gf sf : List PyStr) :
    let pre := build_rows db race race_part
      (List.insertionSort (fun a b => a.race_order ≤ b.race_order)
        (parts.filter (fun q => !q.is_overall)))
      (List.insertionSort (fun a b => a.participant_id ≤ b.participant_id)
        (participants.filter (fun p => p.race_id = race.race_id))) gf sf
    let out := build_results db race race_part parts participants gf sf
    (∀ (i j : Nat) (hi : i < out.length) (hj : j < out.length), i ≤ j →
        out[i].duration_seconds = none →
        out[j].duration_seconds = none) ∧
    ((out.filterMap (fun r => r.duration_seconds)).Pairwise (· ≤ ·)) ∧
    (∀ (i : Nat) (hi : i < out.length),
        out[i].position =
          if out[i].duration_seconds = none then none else some (i + 1)) ∧
    (out.filter (fun r => r.duration_seconds.isNone) =
      pre.filter (fun r => r.duration_seconds.isNone)) := by
  intro pre out
  have hout : out = assignPositions (List.insertionSort rowLE pre) 1 := rfl
  have hpw : (List.insertionSort rowLE pre).Pairwise rowLE :=
    List.sorted_insertionSort rowLE pre
  have hlen : out.length = (List.insertionSort rowLE pre).length :=
    assignPositions_length _ _
  have hget : ∀ (i : Nat) (hi : i < out.length) (hi2 : i < (List.insertionSort rowLE pre).length),
      out[i] =
        { (List.insertionSort rowLE pre)[i] with position :=
            (if (List.insertionSort rowLE pre)[i].duration_seconds = none then none
             else some (1 + List.countP (fun r => r.duration_seconds.isSome) ((List.insertionSort rowLE pre).take i))) } :=
    fun i hi hi2 => assignPositions_getElem (List.insertionSort rowLE pre) 1 i hi hi2
  have hff : ∀ (i j : Nat) (hi : i < (List.insertionSort rowLE pre).length)
      (hj : j < (List.insertionSort rowLE pre).length), i ≤ j →
      (List.insertionSort rowLE pre)[j].duration_seconds ≠ none →
      (List.insertionSort rowLE pre)[i].duration_seconds ≠ none := by
    intro i j hi hj hij hjfin
    rcases Nat.eq_or_lt_of_le hij with heq | hlt
    · subst heq; exact hjfin
    · exact rowLE_finisher (List.pairwise_iff_getElem.mp hpw i j hi hj hlt) hjfin
  refine ⟨?_, ?_, ?_, ?_⟩
  · intro i j hi hj hij hidnf
    have hi2 : i < (List.insertionSort rowLE pre).length := by rw [← hlen]; exact hi
    have hj2 : j < (List.insertionSort rowLE pre).length := by rw [← hlen]; exact hj
    have hdi : out[i].duration_seconds =
        (List.insertionSort rowLE pre)[i].duration_seconds := by
      rw [hget i hi hi2]
    have hdj : out[j].duration_seconds =
        (List.insertionSort rowLE pre)[j].duration_seconds := by
      rw [hget j hj hj2]
    by_contra hjfin
    exact (hdi ▸ hff i j hi2 hj2 hij (fun hc => hjfin (hdj.trans hc))) hidnf
  · have hfm : out.filterMap (fun r => r.duration_seconds) =
        (List.insertionSort rowLE pre).filterMap (fun r => r.duration_seconds) := by
      rw [hout]; exact assignPositions_filterMap_duration _ _
    rw [hfm]
    exact List.Pairwise.filterMap (fun r => r.duration_seconds)
      (fun a b hab x hx y hy => rowLE_le hab hx hy) hpw
  · intro i hi
    have hi2 : i < (List.insertionSort rowLE pre).length := by rw [← hlen]; exact hi
    rw [hget i hi hi2]
    by_cases hd : (List.insertionSort rowLE pre)[i].duration_seconds = none
    · simp [hd]
    · simp only [if_neg hd]
      have htake : ∀ r ∈ (List.insertionSort rowLE pre).take i, r.duration_seconds.isSome := by
        intro r hr
        rw [List.mem_iff_getElem] at hr
        obtain ⟨k, hk, hkr⟩ := hr
        have hki : k < i := by
          have hk2 := hk
          simp only [List.length_take] at hk2
          omega
        have hk3 : k < (List.insertionSort rowLE pre).length := Nat.lt_trans hki hi2
        have hgt : ((List.insertionSort rowLE pre).take i)[k] = (List.insertionSort rowLE pre)[k] := by
          simp [List.getElem_take]
        rw [hgt] at hkr
        rw [← hkr]
        exact Option.isSome_iff_ne_none.mpr
          (hff k i hk3 hi2 (Nat.le_of_lt hki) hd)
      have hcount : List.countP (fun r => r.duration_seconds.isSome)
          ((List.insertionSort rowLE pre).take i) = i := by
        rw [List.countP_eq_length.mpr htake, List.length_take]
        omega
      rw [hcount]
      simp [Nat.add_comm]
  · rw [hout]
    have hposnone : ∀ r ∈ List.insertionSort rowLE pre, r.position = none := by
      intro r hr
      exact build_rows_position_none db race race_part _ _ gf sf r
        ((List.perm_insertionSort rowLE pre).mem_iff.mp hr)
    rw [assignPositions_filter_dnf _ _ hposnone, insertionSort_filter_dnf]

/-- Witness for `build_results_ranking`: in the concrete two-participant
race the finisher ends up in row 0 with rank 1. -/
theorem build_results_ranking_witness :
    ((build_results wdb wrace wpart [wpart] [wp1, wp2] [] []).get
      ⟨0, by decide⟩).position = some 1 :=
  ((build_results_ranking wdb wrace wpart [wpart] [wp1, wp2] [] []).2.2.1 0
    (by decide)).trans (by decide)

/-- Membership description of the ranking pass: every output row is an
input row with its position filled in, and the position is `none` exactly
for DNF rows. -/
theorem assignPositions_mem (l : List ResultRow) (p : Nat) (r : ResultRow)
    (hr : r ∈ assignPositions l p) :
    ∃ x ∈ l, r.duration_seconds = x.duration_seconds ∧
      (r.position = none ↔ x.duration_seconds = none) := by
  induction l generalizing p with
  | nil => simp [assignPositions] at hr
  | cons x xs ih =>
    by_cases hx : x.duration_seconds = none
    · simp only [assignPositions] at hr
      rw [if_pos hx] at hr
      rcases List.mem_cons.mp hr with hr1 | hr2
      · subst hr1
        exact ⟨x, List.mem_cons_self _ _, rfl, by simp [hx]⟩
      · obtain ⟨y, hy, h1, h2⟩ := ih p hr2
        exact ⟨y, List.mem_cons_of_mem _ hy, h1, h2⟩
    · simp only [assignPositions] at hr
      rw [if_neg hx] at hr
      rcases List.mem_cons.mp hr with hr1 | hr2
      · subst hr1
        exact ⟨x, List.mem_cons_self _ _, rfl, by simp [hx]⟩
      · obtain ⟨y, hy, h1, h2⟩ := ih (p + 1) hr2
        exact ⟨y, List.mem_cons_of_mem _ hy, h1, h2⟩

/-- C10: for a race whose only stage is the Overall stage, the Overall
result of every participant is the numeric duration 0 — each results row
is a ranked finisher — rather than DNF. -/
theorem only_overall_stage_ranks_all_at_zero (db : List TimingEvent)
    (race : Race) (race_part : RacePart) (parts : List RacePart)
    (participants : List Participant) (gf sf : List PyStr)
    (hall : ∀ q ∈ parts, q.is_overall = true)
    (hov : race_part.is_overall = true) :
    (∀ (p : Participant) (sub : List RacePart),
      (∀ q ∈ sub, q.is_overall = true) →
      compute_overall_duration db race p sub = some 0) ∧
    (∀ r ∈ build_results db race race_part parts participants gf sf,
      r.duration_seconds = some 0 ∧ r.position ≠ none) := by
  have hzero : ∀ (p : Participant) (sub : List RacePart),
      (∀ q ∈ sub, q.is_overall = true) →
      compute_overall_duration db race p sub = some 0 := by
    intro p sub hsub
    have hfilter : sub.filter (fun q => !q.is_overall) = [] :=
      List.filter_eq_nil_iff.mpr (fun q hq => by simp [hsub q hq])
    rw [compute_overall_duration, overallLoop_spec, hfilter]
    simp
  refine ⟨hzero, ?_⟩
  intro r hr
  simp only [build_results] at hr
  obtain ⟨x, hx, hdur, hiff⟩ := assignPositions_mem _ _ r hr
  have hx2 := (List.perm_insertionSort rowLE _).mem_iff.mp hx
  simp only [build_rows, List.mem_filterMap] at hx2
  obtain ⟨p, hp, hmk⟩ := hx2
  have hfilter : parts.filter (fun q => !q.is_overall) = [] :=
    List.filter_eq_nil_iff.mpr (fun q hq => by simp [hall q hq])
  have hx0 : x.duration_seconds = some 0 := by
    split at hmk
    · exact absurd hmk (by simp)
    · split at hmk
      · exact absurd hmk (by simp)
      · cases hmk
        simp only [hov, if_pos, hfilter]
        exact hzero p _ (by simp [hfilter])
  refine ⟨hdur.trans hx0, fun hpos => ?_⟩
  have hcontra := hiff.mp hpos
  rw [hx0] at hcontra
  simp at hcontra

/-- Witness for `only_overall_stage_ranks_all_at_zero`: with the Overall
stage as the only stage, the concrete first participant gets duration 0
and rank 1 rather than DNF. -/
theorem only_overall_witness :
    (⟨1, "A".toList ++ [' '] ++ "B".toList, "G".toList, [], some 0,
        some 1⟩ : ResultRow).duration_seconds = some 0 ∧
    (⟨1, "A".toList ++ [' '] ++ "B".toList, "G".toList, [], some 0,
        some 1⟩ : ResultRow).position ≠ none :=
  (only_overall_stage_ranks_all_at_zero wdb wrace wpartOverall [wpartOverall]
    [wp1, wp2] [] [] (by decide) (by decide)).2
    ⟨1, "A".toList ++ [' '] ++ "B".toList, "G".toList, [], some 0, some 1⟩
    (by decide)

/-! ## String lemmas for the duration parsers -/

theorem digit_not_whitespace {c : Char} (h : c.isDigit = true) :
    c.isWhitespace = false := by
  cases hw : c.isWhitespace
  · rfl
  · exfalso
    simp only [Char.isWhitespace, Bool.or_eq_true, decide_eq_true_eq] at hw
    rcases hw with ((h1 | h1) | h1) | h1 <;> subst h1 <;> exact absurd h (by decide)

theorem dropWhile_of_all_false {p : Char → Bool} :
    ∀ {s : List Char}, (∀ c ∈ s, p c = false) → s.dropWhile p = s
  | [], _ => rfl
  | c :: cs, h => by
    rw [List.dropWhile_cons, h c (List.mem_cons_self _ _)]
    simp

/-- Stripping a string with no whitespace characters is the identity. -/
theorem pyStrip_eq_self {s : PyStr} (h : ∀ c ∈ s, c.isWhitespace = false) :
    pyStrip s = s := by
  unfold pyStrip
  rw [dropWhile_of_all_false h,
    dropWhile_of_all_false (fun c hc => h c (List.mem_reverse.mp hc)),
    List.reverse_reverse]

/-- Splitting a separator-free string yields the single piece. -/
theorem splitOnChar_of_not_mem {sep : Char} :
    ∀ {s : PyStr}, sep ∉ s → splitOnChar sep s = [s]
  | [], _ => rfl
  | c :: cs, h => by
    have hc : c ≠ sep := fun hc => h (hc ▸ List.mem_cons_self _ _)
    have ih := splitOnChar_of_not_mem (fun hm => h (List.mem_cons_of_mem _ hm))
    simp only [splitOnChar, ih]
    rw [if_neg hc]

/-- Splitting at the first separator when the left part is separator-free. -/
theorem splitOnChar_append {sep : Char} :
    ∀ (a : PyStr) (b : PyStr), sep ∉ a →
      splitOnChar sep (a ++ sep :: b) = a :: splitOnChar sep b
  | [], b, _ => by
    cases hb : splitOnChar sep b with
    | nil => simp [splitOnChar, hb]
    | cons r rs => simp [splitOnChar, hb]
  | c :: a, b, h => by
    have hc : c ≠ sep := fun hc => h (hc ▸ List.mem_cons_self _ _)
    have ih := splitOnChar_append a b (fun hm => h (List.mem_cons_of_mem _ hm))
    rw [List.cons_append]
    simp only [splitOnChar]
    rw [ih]
    simp only [if_neg hc]

/-- A non-empty all-digits string has no whitespace characters. -/
theorem all_digits_no_ws {s : PyStr} (h : s.all Char.isDigit = true) :
    ∀ c ∈ s, c.isWhitespace = false := by
  intro c hc
  exact digit_not_whitespace (List.all_eq_true.mp h c hc)

/-- The colon is not a digit, so an all-digits string is colon-free. -/
theorem all_digits_no_colon {s : PyStr} (h : s.all Char.isDigit = true) :
    ':' ∉ s := by
  intro hc
  have := List.all_eq_true.mp h _ hc
  exact absurd this (by decide)

/-- Python `int()` on a plain digit string returns its value. -/
theorem pyInt?_digits {s : PyStr} (hne : s ≠ []) (h : s.all Char.isDigit = true) :
    pyInt? s = some ((digitsToNat s : Int)) := by
  cases s with
  | nil => exact absurd rfl hne
  | cons c cs =>
    have hstrip : pyStrip (c :: cs) = c :: cs :=
      pyStrip_eq_self (all_digits_no_ws h)
    have hcd : c.isDigit = true := List.all_eq_true.mp h c (List.mem_cons_self _ _)
    have hplus : c ≠ '+' := fun hc => absurd (hc ▸ hcd) (by decide)
    have hminus : c ≠ '-' := fun hc => absurd (hc ▸ hcd) (by decide)
    have hdig : pyIsDigit (c :: cs) = true := by
      simp [pyIsDigit, h]
    simp only [pyInt?, hstrip]
    rw [if_neg hplus, if_neg hminus, if_pos hdig]

/-- C4 counterexample: the purely numeric string `"90"` is accepted (as 90
seconds) by the backend duration parser but rejected by the app ingestor's
`parse_duration_to_seconds`, so no single "ingestor parser" accepts all
three forms. -/
theorem raw_seconds_divergence :
    parse_duration_to_seconds "90".toList =
      .error "Duration must be MM:SS or HH:MM:SS" ∧
    parse_hms_to_seconds "90".toList = .ok 90 := by
  constructor <;> decide

/-- Raw digit strings: accepted by the backend parser, rejected by the app
parser. -/
theorem parse_raw_digits {s : PyStr} (hne : pyStrip s ≠ [])
    (h : (pyStrip s).all Char.isDigit = true) :
    parse_hms_to_seconds s = .ok ((digitsToNat (pyStrip s) : Int)) ∧
    parse_duration_to_seconds s =
      .error "Duration must be MM:SS or HH:MM:SS" := by
  have hemp : (pyStrip s).isEmpty = false := by
    cases hst : pyStrip s with
    | nil => exact absurd hst hne
    | cons c cs => rfl
  constructor
  · simp only [parse_hms_to_seconds, hemp, Bool.false_eq_true, if_false, h,
      if_true]
  · have hsplit : splitOnChar ':' (pyStrip s) = [pyStrip s] :=
      splitOnChar_of_not_mem (all_digits_no_colon h)
    simp only [parse_duration_to_seconds, hsplit]

/-- A form `MM:SS` built from two digit strings parses to `60*MM + SS` in both
parsers. -/
theorem parse_two_part {a b : PyStr} (ha : a ≠ []) (hb : b ≠ [])
    (hda : a.all Char.isDigit = true) (hdb : b.all Char.isDigit = true) :
    parse_duration_to_seconds (a ++ ':' :: b) =
      .ok (60 * (digitsToNat a : Int) + (digitsToNat b : Int)) ∧
    parse_hms_to_seconds (a ++ ':' :: b) =
      .ok (60 * (digitsToNat a : Int) + (digitsToNat b : Int)) := by
  have hnws : ∀ c ∈ a ++ ':' :: b, c.isWhitespace = false := by
    intro c hc
    rcases List.mem_append.mp hc with h1 | h1
    · exact all_digits_no_ws hda c h1
    · rcases List.mem_cons.mp h1 with h2 | h2
      · subst h2; decide
      · exact all_digits_no_ws hdb c h2
  have hstrip : pyStrip (a ++ ':' :: b) = a ++ ':' :: b := pyStrip_eq_self hnws
  have hsplit : splitOnChar ':' (a ++ ':' :: b) = [a, b] := by
    rw [splitOnChar_append a b (all_digits_no_colon hda),
      splitOnChar_of_not_mem (all_digits_no_colon hdb)]
  have hia := pyInt?_digits ha hda
  have hib := pyInt?_digits hb hdb
  have hnotall : (a ++ ':' :: b).all Char.isDigit = false := by
    cases hall : (a ++ ':' :: b).all Char.isDigit with
    | false => rfl
    | true => exact absurd (List.all_eq_true.mp hall ':' (by simp)) (by decide)
  have hne2 : (a ++ ':' :: b).isEmpty = false := by
    cases a with
    | nil => rfl
    | cons c cs => rfl
  constructor
  · simp only [parse_duration_to_seconds, hstrip, hsplit, hia, hib]
    congr 1
    ring
  · simp only [parse_hms_to_seconds, hstrip, hne2, Bool.false_eq_true,
      if_false, hnotall, hsplit, hia, hib]
    congr 1
    ring

/-- A form `HH:MM:SS` built from three digit strings parses to
`3600*HH + 60*MM + SS` in both parsers. -/
theorem parse_three_part {a b c : PyStr} (ha : a ≠ []) (hb : b ≠ [])
    (hc : c ≠ []) (hda : a.all Char.isDigit = true)
    (hdb : b.all Char.isDigit = true) (hdc : c.all Char.isDigit = true) :
    parse_duration_to_seconds (a ++ ':' :: (b ++ ':' :: c)) =
      .ok (3600 * (digitsToNat a : Int) + 60 * (digitsToNat b : Int) +
        (digitsToNat c : Int)) ∧
    parse_hms_to_seconds (a ++ ':' :: (b ++ ':' :: c)) =
      .ok (3600 * (digitsToNat a : Int) + 60 * (digitsToNat b : Int) +
        (digitsToNat c : Int)) := by
  have hnws : ∀ ch ∈ a ++ ':' :: (b ++ ':' :: c), ch.isWhitespace = false := by
    intro ch hch
    rcases List.mem_append.mp hch with h1 | h1
    · exact all_digits_no_ws hda ch h1
    · rcases List.mem_cons.mp h1 with h2 | h2
      · subst h2; decide
      · rcases List.mem_append.mp h2 with h3 | h3
        · exact all_digits_no_ws hdb ch h3
        · rcases List.mem_cons.mp h3 with h4 | h4
          · subst h4; decide
          · exact all_digits_no_ws hdc ch h4
  have hstrip : pyStrip (a ++ ':' :: (b ++ ':' :: c)) =
      a ++ ':' :: (b ++ ':' :: c) := pyStrip_eq_self hnws
  have hsplit : splitOnChar ':' (a ++ ':' :: (b ++ ':' :: c)) = [a, b, c] := by
    rw [splitOnChar_append a _ (all_digits_no_colon hda),
      splitOnChar_append b c (all_digits_no_colon hdb),
      splitOnChar_of_not_mem (all_digits_no_colon hdc)]
  have hia := pyInt?_digits ha hda
  have hib := pyInt?_digits hb hdb
  have hic := pyInt?_digits hc hdc
  have hnotall : (a ++ ':' :: (b ++ ':' :: c)).all Char.isDigit = false := by
    cases hall : (a ++ ':' :: (b ++ ':' :: c)).all Char.isDigit with
    | false => rfl
    | true => exact absurd (List.all_eq_true.mp hall ':' (by simp)) (by decide)
  have hne2 : (a ++ ':' :: (b ++ ':' :: c)).isEmpty = false := by
    cases a with
    | nil => rfl
    | cons ch cs => rfl
  constructor
  · simp only [parse_duration_to_seconds, hstrip, hsplit, hia, hib, hic]
    congr 1
    ring
  · simp only [parse_hms_to_seconds, hstrip, hne2, Bool.false_eq_true,
      if_false, hnotall, hsplit, hia, hib, hic]
    congr 1
    ring

/-- The app parser succeeds exactly on strings whose stripped form splits
at colons into 2 or 3 `int()`-parseable pieces. -/
theorem parse_duration_ok_iff (s : PyStr) :
    (∃ v, parse_duration_to_seconds s = .ok v) ↔
      (((splitOnChar ':' (pyStrip s)).length = 2 ∨
          (splitOnChar ':' (pyStrip s)).length = 3) ∧
        ∀ p ∈ splitOnChar ':' (pyStrip s), (pyInt? p).isSome = true) := by
  rcases hps : splitOnChar ':' (pyStrip s) with _ | ⟨x, _ | ⟨y, _ | ⟨z, _ | ⟨w, rest⟩⟩⟩⟩
  · simp [parse_duration_to_seconds, hps]
  · simp [parse_duration_to_seconds, hps]
  · cases hx : pyInt? x <;> cases hy : pyInt? y <;>
      simp [parse_duration_to_seconds, hps, hx, hy]
  · cases hx : pyInt? x <;> cases hy : pyInt? y <;> cases hz : pyInt? z <;>
      simp [parse_duration_to_seconds, hps, hx, hy, hz]
  · simp [parse_duration_to_seconds, hps]

/-- The backend parser succeeds exactly on raw digit strings plus the
strings the app parser accepts. -/
theorem parse_hms_ok_iff (s : PyStr) :
    (∃ v, parse_hms_to_seconds s = .ok v) ↔
      ((pyStrip s ≠ [] ∧ (pyStrip s).all Char.isDigit = true) ∨
        (((splitOnChar ':' (pyStrip s)).length = 2 ∨
            (splitOnChar ':' (pyStrip s)).length = 3) ∧
          ∀ p ∈ splitOnChar ':' (pyStrip s), (pyInt? p).isSome = true)) := by
  by_cases hemp : (pyStrip s).isEmpty = true
  · have hnil : pyStrip s = [] := by simpa using hemp
    rw [hnil]
    simp [parse_hms_to_seconds, hnil, splitOnChar]
  · have hne : pyStrip s ≠ [] := by simpa using hemp
    have hempf : (pyStrip s).isEmpty = false := by simpa using hemp
    by_cases hdig : (pyStrip s).all Char.isDigit = true
    · simp [parse_hms_to_seconds, hempf, hdig, hne]
    · have hdigf : (pyStrip s).all Char.isDigit = false := by
        simpa using hdig
      rcases hps : splitOnChar ':' (pyStrip s) with _ | ⟨x, _ | ⟨y, _ | ⟨z, _ | ⟨w, rest⟩⟩⟩⟩
      · simp [parse_hms_to_seconds, hempf, hdigf, hps, hdig]
      · simp [parse_hms_to_seconds, hempf, hdigf, hps, hdig]
      · cases hx : pyInt? x <;> cases hy : pyInt? y <;>
          simp [parse_hms_to_seconds, hempf, hdigf, hps, hx, hy, hdig]
      · cases hx : pyInt? x <;> cases hy : pyInt? y <;> cases hz : pyInt? z <;>
          simp [parse_hms_to_seconds, hempf, hdigf, hps, hx, hy, hz, hdig]
      · simp [parse_hms_to_seconds, hempf, hdigf, hps, hdig]

/-- C4 (amended): the backend duration parser accepts exactly raw seconds,
`MM:SS` and `HH:MM:SS` (purely numeric strings parse to that many
seconds, `MM:SS` to `60*MM+SS`, `HH:MM:SS` to `3600*HH+60*MM+SS`, and any
other string is a validation error), while the app ingestor's duration
parser accepts exactly `MM:SS` and `HH:MM:SS` with the same arithmetic
and rejects every other string — including purely numeric raw-seconds
strings — as a validation error. -/
theorem duration_parser_forms :
    (∀ s : PyStr, pyStrip s ≠ [] → (pyStrip s).all Char.isDigit = true →
      parse_hms_to_seconds s = .ok ((digitsToNat (pyStrip s) : Int)) ∧
      parse_duration_to_seconds s =
        .error "Duration must be MM:SS or HH:MM:SS") ∧
    (∀ a b : PyStr, a ≠ [] → b ≠ [] → a.all Char.isDigit = true →
      b.all Char.isDigit = true →
      parse_duration_to_seconds (a ++ ':' :: b) =
        .ok (60 * (digitsToNat a : Int) + (digitsToNat b : Int)) ∧
      parse_hms_to_seconds (a ++ ':' :: b) =
        .ok (60 * (digitsToNat a : Int) + (digitsToNat b : Int))) ∧
    (∀ a b c : PyStr, a ≠ [] → b ≠ [] → c ≠ [] →
      a.all Char.isDigit = true → b.all Char.isDigit = true →
      c.all Char.isDigit = true →
      parse_duration_to_seconds (a ++ ':' :: (b ++ ':' :: c)) =
        .ok (3600 * (digitsToNat a : Int) + 60 * (digitsToNat b : Int) +
          (digitsToNat c : Int)) ∧
      parse_hms_to_seconds (a ++ ':' :: (b ++ ':' :: c)) =
        .ok (3600 * (digitsToNat a : Int) + 60 * (digitsToNat b : Int) +
          (digitsToNat c : Int))) ∧
    (∀ s : PyStr,
      (∃ v, parse_duration_to_seconds s = .ok v) ↔
        (((splitOnChar ':' (pyStrip s)).length = 2 ∨
            (splitOnChar ':' (pyStrip s)).length = 3) ∧
          ∀ p ∈ splitOnChar ':' (pyStrip s), (pyInt? p).isSome = true)) ∧
    (∀ s : PyStr,
      (∃ v, parse_hms_to_seconds s = .ok v) ↔
        ((pyStrip s ≠ [] ∧ (pyStrip s).all Char.isDigit = true) ∨
          (((splitOnChar ':' (pyStrip s)).length = 2 ∨
              (splitOnChar ':' (pyStrip s)).length = 3) ∧
            ∀ p ∈ splitOnChar ':' (pyStrip s), (pyInt? p).isSome = true))) :=
  ⟨fun s hne h => parse_raw_digits hne h,
   fun a b ha hb hda hdb => parse_two_part ha hb hda hdb,
   fun a b c ha hb hc hda hdb hdc => parse_three_part ha hb hc hda hdb hdc,
   parse_duration_ok_iff,
   parse_hms_ok_iff⟩

/-- Witness for `duration_parser_forms`: `"1:30"` parses to 90 seconds in
the app ingestor's parser. -/
theorem duration_parser_forms_witness :
    parse_duration_to_seconds ("1".toList ++ ':' :: "30".toList) = .ok 90 :=
  ((duration_parser_forms.2.1 "1".toList "30".toList (by decide) (by decide)
    (by decide) (by decide)).1).trans (by decide)

/-- C5: each incoming row is classified by its natural key against the
existing rows — absent key ⇒ Added, present key with a differing compared
field ⇒ Modified, present key with all compared fields equal ⇒ Ignored —
and the preview is built from incoming rows only, so existing rows whose
keys do not occur in the incoming set are never part of the diff. -/
theorem build_csv_preview_classifies (incoming : List Row)
    (existing : List (PyVal × Row))
    (hkeys : ∀ r ∈ incoming, (rowGet r "_key").isSome = true) :
    ∃ p, build_csv_preview incoming existing = .ok p ∧
      p.added = incoming.filter
        (fun r => (keyedGet (rowNaturalKey r) existing).isNone) ∧
      p.modified = incoming.filter
        (fun r => (keyedGet (rowNaturalKey r) existing).elim false
          (fun ex => diff_rows ex r)) ∧
      p.ignored = incoming.filter
        (fun r => (keyedGet (rowNaturalKey r) existing).elim false
          (fun ex => !diff_rows ex r)) ∧
      (∀ r, r ∈ p.added ∨ r ∈ p.modified ∨ r ∈ p.ignored → r ∈ incoming) := by
  induction incoming with
  | nil =>
    refine ⟨⟨[], [], []⟩, rfl, rfl, rfl, rfl, ?_⟩
    rintro r (h | h | h) <;> simp at h
  | cons r rest ih =>
    have hk := hkeys r (List.mem_cons_self _ _)
    obtain ⟨k, hkeq⟩ := Option.isSome_iff_exists.mp hk
    obtain ⟨p, hp, ha, hm, hi, hmem⟩ :=
      ih (fun x hx => hkeys x (List.mem_cons_of_mem _ hx))
    have hnat : rowNaturalKey r = k := by
      simp [rowNaturalKey, hkeq]
    cases hex : keyedGet k existing with
    | none =>
      refine ⟨{ p with added := r :: p.added }, ?_, ?_, ?_, ?_, ?_⟩
      · simp only [build_csv_preview, hkeq, hp, hex]
      · simp [List.filter_cons, hnat, hex, ha]
      · simp [List.filter_cons, hnat, hex, hm]
      · simp [List.filter_cons, hnat, hex, hi]
      · rintro x (hx | hx | hx)
        · rcases List.mem_cons.mp hx with h1 | h1
          · exact h1 ▸ List.mem_cons_self _ _
          · exact List.mem_cons_of_mem _ (hmem x (Or.inl h1))
        · exact List.mem_cons_of_mem _ (hmem x (Or.inr (Or.inl hx)))
        · exact List.mem_cons_of_mem _ (hmem x (Or.inr (Or.inr hx)))
    | some ex =>
      cases hdiff : diff_rows ex r with
      | true =>
        refine ⟨{ p with modified := r :: p.modified }, ?_, ?_, ?_, ?_, ?_⟩
        · simp [build_csv_preview, hkeq, hp, hex, hdiff]
        · simp [List.filter_cons, hnat, hex, ha]
        · simp [List.filter_cons, hnat, hex, hdiff, hm]
        · simp [List.filter_cons, hnat, hex, hdiff, hi]
        · rintro x (hx | hx | hx)
          · exact List.mem_cons_of_mem _ (hmem x (Or.inl hx))
          · rcases List.mem_cons.mp hx with h1 | h1
            · exact h1 ▸ List.mem_cons_self _ _
            · exact List.mem_cons_of_mem _ (hmem x (Or.inr (Or.inl h1)))
          · exact List.mem_cons_of_mem _ (hmem x (Or.inr (Or.inr hx)))
      | false =>
        refine ⟨{ p with ignored := r :: p.ignored }, ?_, ?_, ?_, ?_, ?_⟩
        · simp [build_csv_preview, hkeq, hp, hex, hdiff]
        · simp [List.filter_cons, hnat, hex, ha]
        · simp [List.filter_cons, hnat, hex, hdiff, hm]
        · simp [List.filter_cons, hnat, hex, hdiff, hi]
        · rintro x (hx | hx | hx)
          · exact List.mem_cons_of_mem _ (hmem x (Or.inl hx))
          · exact List.mem_cons_of_mem _ (hmem x (Or.inr (Or.inl hx)))
          · rcases List.mem_cons.mp hx with h1 | h1
            · exact h1 ▸ List.mem_cons_self _ _
            · exact List.mem_cons_of_mem _ (hmem x (Or.inr (Or.inr h1)))

/-- Witness for `build_csv_preview_classifies` at the concrete three-row
upload. -/
theorem build_csv_preview_witness :
    ∃ p, build_csv_preview c5incoming c5existing = .ok p ∧
      p.added = c5incoming.filter
        (fun r => (keyedGet (rowNaturalKey r) c5existing).isNone) ∧
      p.modified = c5incoming.filter
        (fun r => (keyedGet (rowNaturalKey r) c5existing).elim false
          (fun ex => diff_rows ex r)) ∧
      p.ignored = c5incoming.filter
        (fun r => (keyedGet (rowNaturalKey r) c5existing).elim false
          (fun ex => !diff_rows ex r)) ∧
      (∀ r, r ∈ p.added ∨ r ∈ p.modified ∨ r ∈ p.ignored → r ∈ c5incoming) :=
  build_csv_preview_classifies c5incoming c5existing (by decide)

/-! ## Apply-time group re-validation (C9) -/

/-- Behaviour of the apply-time validation loop: it fails on exactly the
first row with an invalid stripped group name, with that row's message,
and succeeds only when every row's group is valid. -/
theorem validateGroups_spec (rows : List PRow) :
    (∀ rb, rows.find?
        (fun r => !is_valid_group_name (pyStrip (r.group.getD []))) = some rb →
      validateGroups rows =
        .error (group_apply_error rb (pyStrip (rb.group.getD [])))) ∧
    (∀ out, validateGroups rows = .ok out →
      ∀ r ∈ rows, is_valid_group_name (pyStrip (r.group.getD [])) = true) ∧
    (∀ e, validateGroups rows = .error e →
      ∃ rb, rows.find?
          (fun r => !is_valid_group_name (pyStrip (r.group.getD []))) = some rb ∧
        e = group_apply_error rb (pyStrip (rb.group.getD []))) ∧
    ((∀ r ∈ rows, is_valid_group_name (pyStrip (r.group.getD [])) = true) →
      ∃ out, validateGroups rows = .ok out) := by
  induction rows with
  | nil =>
    refine ⟨?_, ?_, ?_, ?_⟩
    · intro rb h; simp at h
    · intro out h r hr; simp at hr
    · intro e h; simp [validateGroups] at h
    · intro _; exact ⟨[], rfl⟩
  | cons r rs ih =>
    obtain ⟨ih1, ih2, ih3, ih4⟩ := ih
    by_cases hv : is_valid_group_name (pyStrip (r.group.getD [])) = true
    · refine ⟨?_, ?_, ?_, ?_⟩
      · intro rb hf
        simp only [List.find?_cons, hv, Bool.not_true] at hf
        have herr := ih1 rb hf
        simp [validateGroups, hv, herr]
      · intro out hout x hx
        cases hrs : validateGroups rs with
        | error e => simp [validateGroups, hv, hrs] at hout
        | ok rs2 =>
          rcases List.mem_cons.mp hx with h1 | h1
          · subst h1; exact hv
          · exact ih2 rs2 hrs x h1
      · intro e he
        cases hrs : validateGroups rs with
        | error e2 =>
          simp only [validateGroups, hv, if_true, hrs] at he
          obtain ⟨rb, hfind, hmsg⟩ := ih3 e2 hrs
          refine ⟨rb, ?_, ?_⟩
          · simp only [List.find?_cons, hv, Bool.not_true]
            exact hfind
          · cases he; exact hmsg
        | ok rs2 => simp [validateGroups, hv, hrs] at he
      · intro hall
        obtain ⟨out, hout⟩ := ih4 (fun x hx => hall x (List.mem_cons_of_mem _ hx))
        exact ⟨{ r with group := some (pyStrip (r.group.getD [])) } :: out,
          by simp [validateGroups, hv, hout]⟩
    · have hvf : is_valid_group_name (pyStrip (r.group.getD [])) = false := by
        simpa using hv
      refine ⟨?_, ?_, ?_, ?_⟩
      · intro rb hf
        simp only [List.find?_cons, hvf, Bool.not_false] at hf
        cases hf
        simp [validateGroups, hvf]
      · intro out hout; simp [validateGroups, hvf] at hout
      · intro e he
        simp only [validateGroups, hvf, Bool.false_eq_true, if_false] at he
        refine ⟨r, by simp [List.find?_cons, hvf], ?_⟩
        cases he; rfl
      · intro hall
        exact absurd (hall r (List.mem_cons_self _ _)) hv

/-- C9: `apply_participants_csv` re-validates the stripped group name of
every Added and Modified row of the posted diff payload; if one is
invalid the apply is rejected with that row's specific message (and,
erroring before the commit, leaves the store unchanged), and a successful
apply implies every such row had a valid group name. -/
theorem apply_csv_revalidates_groups (race_id : PyStr) (preview : PPreview)
    (store : List Participant) :
    (∀ rb, (preview.added ++ preview.modified).find?
        (fun r => !is_valid_group_name (pyStrip (r.group.getD []))) = some rb →
      apply_participants_csv race_id preview store =
        .error (group_apply_error rb (pyStrip (rb.group.getD [])))) ∧
    (∀ store2, apply_participants_csv race_id preview store = .ok store2 →
      ∀ r ∈ preview.added ++ preview.modified,
        is_valid_group_name (pyStrip (r.group.getD [])) = true) := by
  constructor
  · intro rb hf
    rw [List.find?_append] at hf
    cases hfa : preview.added.find?
        (fun r => !is_valid_group_name (pyStrip (r.group.getD []))) with
    | some rb2 =>
      rw [hfa] at hf
      have hrb : rb2 = rb := by simpa using hf
      subst hrb
      have herr := (validateGroups_spec preview.added).1 rb2 hfa
      simp [apply_participants_csv, herr]
    | none =>
      rw [hfa] at hf
      simp only [Option.none_or] at hf
      have hall : ∀ x ∈ preview.added,
          is_valid_group_name (pyStrip (x.group.getD [])) = true := by
        intro x hx
        have := List.find?_eq_none.mp hfa x hx
        simpa using this
      obtain ⟨out, hout⟩ := (validateGroups_spec preview.added).2.2.2 hall
      have herr := (validateGroups_spec preview.modified).1 rb hf
      simp [apply_participants_csv, hout, herr]
  · intro store2 hok r hr
    cases hva : validateGroups preview.added with
    | error e => simp [apply_participants_csv, hva] at hok
    | ok added2 =>
      cases hvm : validateGroups preview.modified with
      | error e => simp [apply_participants_csv, hva, hvm] at hok
      | ok modified2 =>
        rcases List.mem_append.mp hr with h1 | h1
        · exact (validateGroups_spec preview.added).2.1 added2 hva r h1
        · exact (validateGroups_spec preview.modified).2.1 modified2 hvm r h1

/-- Witness for `apply_csv_revalidates_groups`: the apply with one invalid
modified row is rejected with that row's message. -/
theorem apply_csv_revalidates_witness :
    apply_participants_csv "r".toList c9preview [] =
      .error (group_apply_error c9bad (pyStrip (c9bad.group.getD []))) :=
  (apply_csv_revalidates_groups "r".toList c9preview []).1 c9bad (by decide)

/-! ## Claiming a pending end event (C6) -/

/-- C6 (code bug): the deferred-claim endpoint cannot perform the claimed
identity-gated workflow at all.  `app/models.py` declares no
`created_by_username` attribute (the startup migration adds only an
unmapped raw column), so once the race, stage and event lookups pass the
handler crashes with `AttributeError` at the identity comparison instead
of validating the claim, the retarget/duplicate success path is
unreachable, and the endpoint never returns `.ok` on any input: claiming
the concrete untargeted, end-stamped pending event by its submitter
yields the uncaught-exception 500, not the claimed behaviour. -/
theorem submit_end_targets_attribute_error :
    submit_end_targets [wrace] [wpart] [c6pending] "r".toList "s".toList 5
      "u".toList "12".toList 7 = .error 500 ∧
    ∀ (races : List Race) (parts : List RacePart) (db : List TimingEvent)
      (race_id race_part_id : PyStr) (event_id : Nat)
      (username targets : PyStr) (next_id : Nat),
      ∃ code, submit_end_targets races parts db race_id race_part_id event_id
        username targets next_id = .error code := by
  constructor
  · decide
  · intro races parts db race_id race_part_id event_id username targets next_id
    simp only [submit_end_targets]
    split
    · exact ⟨404, rfl⟩
    · split
      · exact ⟨404, rfl⟩
      · split
        · exact ⟨404, rfl⟩
        · split
          · exact ⟨404, rfl⟩
          · split
            · exact ⟨404, rfl⟩
            · exact ⟨500, rfl⟩

/-! ## Wave-start schedule (C7) -/

/-- Closed form of the wave scheduler's per-participant loop. -/
theorem waveTotal_spec (db : List TimingEvent) (race : Race)
    (p : Participant) (qs : List RacePart) : ∀ acc : Int,
    waveTotal db race p qs acc =
      (if qs.all (fun q =>
            (compute_participant_duration db race q.race_part_id p).isSome)
       then some (acc + (qs.map (fun q =>
            (compute_participant_duration db race q.race_part_id p).getD 0)).sum)
       else none) := by
  induction qs with
  | nil => intro acc; simp [waveTotal]
  | cons q rest ih =>
    intro acc
    cases hd : compute_participant_duration db race q.race_part_id p with
    | none => simp [waveTotal, hd]
    | some d =>
      simp only [waveTotal, hd]
      rw [ih (acc + d)]
      simp [hd, add_assoc]

/-- The wave schedule before sorting is exactly the participants with no
preceding DNF, each mapped to its cumulative offset. -/
theorem schedule_eq (db : List TimingEvent) (race : Race)
    (previous_parts : List RacePart) (filtered : List Participant) :
    (filtered.filterMap (fun p =>
      match waveTotal db race p previous_parts 0 with
      | none => none
      | some total =>
        some ({ participant_id := p.participant_id
                group := p.group
                offset_seconds := total } : WaveRow))) =
    (filtered.filter (fun p => previous_parts.all (fun q =>
        (compute_participant_duration db race q.race_part_id p).isSome))).map
      (fun p =>
        ({ participant_id := p.participant_id
           group := p.group
           offset_seconds := (previous_parts.map (fun q =>
             (compute_participant_duration db race q.race_part_id p).getD 0)).sum } : WaveRow)) := by
  induction filtered with
  | nil => rfl
  | cons p rest ih =>
    rw [List.filterMap_cons, List.filter_cons, waveTotal_spec]
    by_cases hall : (previous_parts.all (fun q =>
        (compute_participant_duration db race q.race_part_id p).isSome)) = true
    · rw [if_pos hall]
      simp only [hall, if_pos, List.map_cons, zero_add]
      rw [ih]
    · have hallf : (previous_parts.all (fun q =>
          (compute_participant_duration db race q.race_part_id p).isSome)) = false := by
        simpa using hall
      rw [if_neg hall]
      simp only [hallf, Bool.false_eq_true, if_false]
      exact ih

/-- C7 counterexample: with no preceding stage every matched participant
has cumulative offset 0, so the output offsets are not strictly
ascending. -/
theorem wave_not_strictly_ascending :
    wave_starts_data [wrace] [wpart] [wp1, wp2] [] "r".toList "s".toList
      "1,2".toList =
      .ok [⟨1, "G".toList, 0⟩, ⟨2, "G".toList, 0⟩] ∧
    ¬ List.Pairwise (fun a b : WaveRow => a.offset_seconds < b.offset_seconds)
      [⟨1, "G".toList, 0⟩, ⟨2, "G".toList, 0⟩] := by
  constructor
  · decide
  · decide

/-- C7 (amended): a successful wave-schedule response contains exactly the
matched participants with a numeric duration in every preceding
non-overall stage (a participant with any preceding DNF is excluded),
each with their cumulative offset, sorted in non-decreasing (not
necessarily strictly increasing) order of cumulative offset. -/
theorem wave_starts_sorted_and_excludes (races : List Race)
    (parts : List RacePart) (participants : List Participant)
    (db : List TimingEvent) (race_id race_part_id targets : PyStr)
    (race : Race) (current_part : RacePart) (rows : List WaveRow)
    (hrace : races.find? (fun r => r.race_id = race_id) = some race)
    (hcur : (List.insertionSort partOrderLE
        (parts.filter (fun q => q.race_id = race_id))).find?
        (fun q => q.race_part_id = race_part_id) = some current_part)
    (hok : wave_starts_data races parts participants db race_id race_part_id
        targets = .ok rows) :
    List.Perm rows
      ((((participants.filter (fun p => p.race_id = race_id)).filter (fun p =>
          intToPyStr p.participant_id ∈ parse_comma_list targets ∨
            p.group ∈ parse_comma_list targets)).filter (fun p =>
          ((List.insertionSort partOrderLE
              (parts.filter (fun q => q.race_id = race_id))).filter (fun q =>
              !q.is_overall ∧ q.race_order < current_part.race_order)).all
            (fun q =>
              (compute_participant_duration db race q.race_part_id p).isSome))).map
        (fun p =>
          ({ participant_id := p.participant_id
             group := p.group
             offset_seconds := (((List.insertionSort partOrderLE
                 (parts.filter (fun q => q.race_id = race_id))).filter (fun q =>
                 !q.is_overall ∧ q.race_order < current_part.race_order)).map
               (fun q =>
                 (compute_participant_duration db race q.race_part_id p).getD 0)).sum } : WaveRow))) ∧
    List.Pairwise (fun a b : WaveRow => a.offset_seconds ≤ b.offset_seconds)
      rows := by
  simp only [wave_starts_data, hrace] at hok
  split at hok
  · cases hok
  · split at hok
    · cases hok
    · split at hok
      · cases hok
      · rename_i cp hcp
        have hcpe : cp = current_part := by
          rw [hcp] at hcur
          exact Option.some.inj hcur
        subst hcpe
        cases hok
        constructor
        · refine (List.perm_insertionSort _ _).trans ?_
          rw [schedule_eq]
        · haveI h1 : IsTotal WaveRow
              (fun a b => a.offset_seconds ≤ b.offset_seconds) :=
            ⟨fun a b => le_total _ _⟩
          haveI h2 : IsTrans WaveRow
              (fun a b => a.offset_seconds ≤ b.offset_seconds) :=
            ⟨fun a b c hab hbc => le_trans hab hbc⟩
          exact List.sorted_insertionSort _ _

/-- Witness for `wave_starts_sorted_and_excludes` on the concrete
two-stage race. -/
theorem wave_starts_witness :
    List.Pairwise (fun a b : WaveRow => a.offset_seconds ≤ b.offset_seconds)
      [⟨1, "G".toList, 100⟩] :=
  (wave_starts_sorted_and_excludes [wrace] [c7s0, c7s1] [wp1, wp2] [c7e1]
    "r".toList "s1".toList "1,2".toList wrace c7s1 [⟨1, "G".toList, 100⟩]
    (by decide) (by decide) (by decide)).2

/-! ## Duration submission fan-out (C8) -/

/-- C8 (code bug): duration submission cannot create the claimed events.
Every `create_timing_event` call passes `created_by_username=` to the
`TimingEvent(...)` constructor, a keyword `app/models.py` does not
declare, so event construction always raises `TypeError`: submitting the
spec example `"12,B,45"` with one payload crashes at the first token with
an uncaught-exception 500 and zero events committed, and the only
submission that succeeds is an empty target list, which commits zero
events. -/
theorem submit_duration_type_error :
    (∀ (fresh_id : Nat) (race : Race) (race_part_id : PyStr)
      (participant_id : Option Int) (group : Option PyStr)
      (client_time server_now : Int) (duration_seconds : Option Int)
      (start_time end_time : Option Int) (created_by_username : Option PyStr),
      create_timing_event fresh_id race race_part_id participant_id group
        client_time server_now duration_seconds start_time end_time
        created_by_username =
        .error "TypeError: created_by_username is an invalid keyword argument for TimingEvent") ∧
    submit_duration [wrace] [wpart] [] "r".toList "s".toList "12,B,45".toList
      "1:40".toList 50 (fun i => 60 + (i : Int)) 10 = .error 500 ∧
    submit_duration [wrace] [wpart] [] "r".toList "s".toList [] "1:40".toList
      50 (fun i => 60 + (i : Int)) 10 = .ok [] := by
  refine ⟨fun _ _ _ _ _ _ _ _ _ _ _ => rfl, by decide, by decide⟩

end GlhTimer
